import Mathlib

/-!
# Verification of the synthetic-data-kit generation pipeline

Shallow embedding of the Python sources under `synthetic_data_kit/` into
Lean 4, together with proofs about the batching dispatcher, the generators'
result assembly, the parquet ingestion and the JSON output settings.

Conventions used throughout the embedding:

* Python exceptions are modelled with `Except PyErr`; a function that can
  raise returns `Except PyErr α` and raising is `.error e`.
* Python `float` division `len(a) / len(b)` is modelled as exact division
  in `ℚ` (the claims under verification are about the quotient and the
  zero-divisor guard, not about floating-point rounding).
* Python strings are Lean `String`s; `len` is `String.length`
  (both count unicode code points).
* Python dicts that are used as records are modelled as structures; a key
  that may be absent (`doc["id"]`) becomes an `Option` field, and the
  subscript access becomes a function into `Except PyErr` that raises
  `KeyError` on a missing key.
-/

/-- Python exceptions that appear in the embedded code paths. -/
inductive PyErr where
  /-- Python `KeyError(k)` raised by `d[k]` on a missing dict key. -/
  | keyError (key : String)
  /-- Python `ZeroDivisionError` raised by `a / b` with `b == 0`. -/
  | zeroDivisionError
  /-- Python `ValueError(msg)`. -/
  | valueError (msg : String)
  /-- Python `FileNotFoundError(msg)`. -/
  | fileNotFoundError (msg : String)
  /-- any other exception carrying its message (used for LLM backend failures). -/
  | exception (msg : String)
deriving DecidableEq, Repr

instance exceptDecEq {ε α : Type} [DecidableEq ε] [DecidableEq α] :
    DecidableEq (Except ε α) := fun a b =>
  match a, b with
  | .error e1, .error e2 =>
    if h : e1 = e2 then .isTrue (by rw [h])
    else .isFalse (fun he => h (Except.error.inj he))
  | .ok x, .ok y =>
    if h : x = y then .isTrue (by rw [h])
    else .isFalse (fun he => h (Except.ok.inj he))
  | .error _, .ok _ => .isFalse (fun he => Except.noConfusion he)
  | .ok _, .error _ => .isFalse (fun he => Except.noConfusion he)

/-- A document record as it flows through the pipeline: a Python dict with a
`"text"` entry, an optional `"id"` entry (`none` models the key being absent)
and an optional `"image"` entry (`some none` models the key being present with
value `None`, as built by `create.process_file` for plain files). -/
structure PyDoc where
  text : String
  id : Option String := none
  image : Option (Option String) := none
deriving DecidableEq, Repr

/-- The subscript `doc["id"]`: raises `KeyError('id')` when the key is absent. -/
def PyDoc.getId (d : PyDoc) : Except PyErr String :=
  match d.id with
  | some v => .ok v
  | none => .error (.keyError "id")

/-- Python true division on the lengths `a / b`, raising `ZeroDivisionError`
when `b = 0` (modelled exactly in `ℚ`). -/
def pyDiv (a b : Nat) : Except PyErr ℚ :=
  if b = 0 then .error .zeroDivisionError else .ok ((a : ℚ) / (b : ℚ))

/-- A Python `for` loop that builds a list, propagating the first raised
exception (the monadic loop shape shared by all generators). -/
def collectE {α β : Type} (f : α → Except PyErr β) : List α → Except PyErr (List β)
  | [] => .ok []
  | x :: xs => do
    let y ← f x
    let ys ← collectE f xs
    pure (y :: ys)

/-- Python `"{text}".format` substitution: replaces every occurrence of the
placeholder `\x7btext\x7d` in the template by `s` (the only substitution point
the prompt templates use). -/
def pyFormatText (template s : String) : String :=
  String.intercalate s (template.splitOn "\x7btext\x7d")

/-- One chat message `{"role": ..., "content": ...}`. -/
structure ChatMsg where
  role : String
  content : String
deriving DecidableEq, Repr

/-! ## Batch dispatch (`BaseGenerator.process_documents`,
`QAGenerator.generate_qa_pairs`)

The Python loop is `for batch_start in range(0, len(xs), batch_size)` with
`batch = xs[batch_start : min(batch_start + batch_size, len(xs))]`. -/

/-- Python `range(start, stop, step)` for a positive `step`. -/
def pyRange (start stop step : Nat) : List Nat :=
  (List.range ((stop - start + step - 1) / step)).map (fun i => start + step * i)

/-- The list of batches (slices) the dispatch loop iterates over, in dispatch
order: batch `k` is `xs[k*b : k*b + b]`. -/
def batchesOf {α : Type} (xs : List α) (b : Nat) : List (List α) :=
  (pyRange 0 xs.length b).map (fun s => (xs.drop s).take b)

/-- All responses collected by dispatching each batch to a total backend `f`
and extending the accumulator, in order. -/
def dispatchResponses {α β : Type} (f : List α → List β) (xs : List α) (b : Nat) :
    List β :=
  ((batchesOf xs b).map f).flatten

theorem pyRange_zero_stop (step : Nat) : pyRange 0 0 step = [] := by
  unfold pyRange
  rcases Nat.eq_zero_or_pos step with h | h
  · subst h; simp
  · rw [Nat.div_eq_of_lt (by omega)]; simp

theorem batchesOf_nil {α : Type} (b : Nat) : batchesOf ([] : List α) b = [] := by
  simp [batchesOf, pyRange_zero_stop]

/-- Peeling the first batch off the dispatch loop. -/
theorem batchesOf_cons {α : Type} (b : Nat) (hb : 0 < b) (xs : List α)
    (hx : xs ≠ []) : batchesOf xs b = xs.take b :: batchesOf (xs.drop b) b := by
  have hn : 0 < xs.length := List.length_pos.mpr hx
  have hcount : (xs.length + b - 1) / b = (xs.length - b + b - 1) / b + 1 := by
    rcases Nat.le_total xs.length b with h | h
    · have h1 : xs.length - b = 0 := Nat.sub_eq_zero_of_le h
      rw [h1]
      have h2 : (xs.length + b - 1) / b = 1 := by
        have hlo : b ≤ xs.length + b - 1 := by omega
        have hhi : xs.length + b - 1 < 2 * b := by omega
        have := Nat.div_eq_of_lt_le (by omega : 1 * b ≤ xs.length + b - 1)
          (by omega : xs.length + b - 1 < (1 + 1) * b)
        omega
      have h3 : (0 + b - 1) / b = 0 := Nat.div_eq_of_lt (by omega)
      omega
    · have : xs.length - b + b - 1 + b = xs.length + b - 1 := by omega
      rw [← this, Nat.add_div_right _ hb]
  unfold batchesOf pyRange
  rw [Nat.sub_zero, Nat.sub_zero, hcount, List.range_succ_eq_map]
  simp only [List.map_cons, List.map_map]
  congr 1
  rw [List.length_drop]
  apply List.map_congr_left
  intro i _
  simp only [Function.comp_apply]
  rw [List.drop_drop]
  congr 2
  have h5 : Nat.succ i = i + 1 := rfl
  rw [h5]
  ring

/-- The dispatched batches concatenate back to the input list: the loop covers
every prompt exactly once, in the original order. -/
theorem batchesOf_join {α : Type} (b : Nat) (hb : 0 < b) :
    ∀ xs : List α, (batchesOf xs b).flatten = xs := by
  have H : ∀ (n : Nat) (xs : List α), xs.length ≤ n → (batchesOf xs b).flatten = xs := by
    intro n
    induction n with
    | zero =>
      intro xs h
      have : xs = [] := List.eq_nil_of_length_eq_zero (Nat.le_zero.mp h)
      subst this
      simp [batchesOf_nil]
    | succ n ih =>
      intro xs h
      by_cases hx : xs = []
      · subst hx; simp [batchesOf_nil]
      · rw [batchesOf_cons b hb xs hx]
        simp only [List.flatten_cons]
        rw [ih (xs.drop b) (by
          rw [List.length_drop]
          have : 0 < xs.length := List.length_pos.mpr hx
          omega)]
        exact List.take_append_drop b xs
  intro xs
  exact H xs.length xs (Nat.le_refl _)

theorem batchesOf_length {α : Type} (xs : List α) (b : Nat) :
    (batchesOf xs b).length = (xs.length + b - 1) / b := by
  simp [batchesOf, pyRange]

theorem batchesOf_batch_le {α : Type} (xs : List α) (b : Nat) :
    ∀ bt ∈ batchesOf xs b, bt.length ≤ b := by
  intro bt hbt
  unfold batchesOf at hbt
  rcases List.mem_map.mp hbt with ⟨s, _, rfl⟩
  calc ((xs.drop s).take b).length ≤ b := by
        rw [List.length_take]
        exact min_le_left _ _

theorem dispatchResponses_map {α β : Type} (g : α → β) (xs : List α) (b : Nat)
    (hb : 0 < b) : dispatchResponses (List.map g) xs b = xs.map g := by
  unfold dispatchResponses
  rw [← List.map_flatten, batchesOf_join b hb]

/-! ## QA response parser (`synthetic_data_kit/utils/llm_processing.py`)

The module defining `parse_qa_pairs` is not part of the sources provided
(only its caller `qa_generator.py` and its tests are), so the parser is
modelled from the spec, §4.2. -/

/-- The whitespace characters stripped by Python `str.strip()` (ASCII range). -/
def isPyWs (c : Char) : Bool :=
  c = ' ' || c = '\t' || c = '\n' || c = '\r' || c = '\x0b' || c = '\x0c'

/-- Python `str.strip()` on a character list. -/
def pyStrip (cs : List Char) : List Char :=
  ((cs.dropWhile isPyWs).reverse.dropWhile isPyWs).reverse

/-- The question marker scanned for by the parser. -/
def qMark : List Char := "Question:".toList

/-- The answer marker scanned for by the parser. -/
def aMark : List Char := "Answer:".toList

/-- Scan for the first occurrence of the marker `m`; on success return the
text before the marker and the remainder after it. -/
def findMarker (m : List Char) : List Char → Option (List Char × List Char)
  | [] => none
  | c :: rest =>
    if m.isPrefixOf (c :: rest) then some ([], (c :: rest).drop m.length)
    else
      match findMarker m rest with
      | some (pre, post) => some (c :: pre, post)
      | none => none

theorem findMarker_some_length (m : List Char) :
    ∀ (cs pre post : List Char), findMarker m cs = some (pre, post) →
      cs.length = pre.length + m.length + post.length := by
  intro cs
  induction cs with
  | nil => intro pre post h; simp [findMarker] at h
  | cons c rest ih =>
    intro pre post h
    rw [findMarker] at h
    by_cases hp : m.isPrefixOf (c :: rest)
    · rw [if_pos hp] at h
      have hle : m.length ≤ (c :: rest).length :=
        (List.isPrefixOf_iff_prefix.mp hp).length_le
      injection h with h'
      obtain ⟨h1, h2⟩ := Prod.mk.injEq _ _ _ _ ▸ h'
      subst h1
      subst h2
      simp only [List.length_nil, List.length_drop]
      omega
    · rw [if_neg hp] at h
      cases hfm : findMarker m rest with
      | none => rw [hfm] at h; cases h
      | some pr =>
        obtain ⟨pre', post'⟩ := pr
        rw [hfm] at h
        injection h with h'
        obtain ⟨h1, h2⟩ := Prod.mk.injEq _ _ _ _ ▸ h'
        subst h1
        subst h2
        have := ih pre' post' hfm
        simp only [List.length_cons]
        omega

/-- A marker at the very front is found immediately. -/
theorem findMarker_of_prefix (m rest : List Char) (hm : m ≠ []) :
    findMarker m (m ++ rest) = some ([], rest) := by
  cases m with
  | nil => exact absurd rfl hm
  | cons x m' =>
    rw [List.cons_append, findMarker]
    rw [if_pos (List.isPrefixOf_iff_prefix.mpr (by
      rw [← List.cons_append]; exact List.prefix_append _ _))]
    rw [← List.cons_append, List.drop_left]

/-- Decidable occurrence check: does `m` occur as a contiguous sublist? -/
def occursB (m : List Char) : List Char → Bool
  | [] => m.isEmpty
  | c :: rest => m.isPrefixOf (c :: rest) || occursB m rest

theorem occursB_false_drop (m : List Char) :
    ∀ cs, occursB m cs = false → ∀ k, m.isPrefixOf (cs.drop k) = false := by
  intro cs
  induction cs with
  | nil =>
    intro h k
    have hm : m ≠ [] := by
      intro he
      subst he
      simp [occursB, List.isEmpty] at h
    simp only [List.drop_nil]
    cases hp : m.isPrefixOf [] with
    | false => rfl
    | true =>
      exact absurd (List.prefix_nil.mp (List.isPrefixOf_iff_prefix.mp hp)) hm
  | cons c rest ih =>
    intro h k
    rw [occursB, Bool.or_eq_false_iff] at h
    cases k with
    | zero => exact h.1
    | succ k => exact ih h.2 k

theorem not_occursB_of_drop (m : List Char) (cs : List Char)
    (h : occursB m cs = false) : findMarker m cs = none := by
  induction cs with
  | nil => rfl
  | cons c rest ih =>
    rw [occursB, Bool.or_eq_false_iff] at h
    rw [findMarker, if_neg (by rw [h.1]; exact Bool.false_ne_true), ih h.2]

/-- If the marker fits inside `xs`, a prefix match on `xs ++ ys` is a prefix
match on `xs`. -/
theorem isPrefixOf_append_left (m xs ys : List Char)
    (h : m.isPrefixOf (xs ++ ys) = true) (hle : m.length ≤ xs.length) :
    m.isPrefixOf xs = true := by
  rw [List.isPrefixOf_iff_prefix] at h ⊢
  rw [List.prefix_iff_eq_take] at h
  rw [List.take_append_of_le_length hle] at h
  rw [h]
  exact List.take_prefix _ _

/-- Marker `m` has no nonempty proper border (no proper prefix equal to a suffix). -/
def borderFree (m : List Char) : Prop :=
  ∀ j, 0 < j → j < m.length → m.drop j ≠ m.take (m.length - j)

/-- A border-free marker cannot match spanning the boundary between a short
chunk `s` and a following copy of the marker. -/
theorem borderFree_no_span (m : List Char) (hbf : borderFree m)
    (s ys : List Char) (hs : s ≠ []) (hlt : s.length < m.length) :
    m.isPrefixOf (s ++ m ++ ys) = false := by
  cases hp : m.isPrefixOf (s ++ m ++ ys) with
  | false => rfl
  | true =>
    exfalso
    have hsle : s.length ≤ m.length := Nat.le_of_lt hlt
    have h := List.prefix_iff_eq_take.mp (List.isPrefixOf_iff_prefix.mp hp)
    rw [List.take_append_eq_append_take, List.length_append,
      Nat.sub_eq_zero_of_le (by omega : m.length ≤ s.length + m.length),
      List.take_zero, List.append_nil,
      List.take_append_eq_append_take, List.take_of_length_le hsle] at h
    have hdrop : m.drop s.length = m.take (m.length - s.length) := by
      conv_lhs => rw [h]
      rw [List.drop_left]
    exact hbf s.length (List.length_pos.mpr hs) hlt hdrop

/-- The scan finds the first marker occurrence: with no occurrence inside `xs`
and a border-free marker, scanning `xs ++ m ++ ys` yields `(xs, ys)`. -/
theorem findMarker_append (m : List Char) (hm : m ≠ []) (hbf : borderFree m) :
    ∀ xs ys, occursB m xs = false →
      findMarker m (xs ++ m ++ ys) = some (xs, ys) := by
  intro xs
  induction xs with
  | nil => intro ys _; exact findMarker_of_prefix m ys hm
  | cons c xs ih =>
    intro ys hocc
    rw [occursB, Bool.or_eq_false_iff] at hocc
    have hnp : m.isPrefixOf (c :: xs ++ m ++ ys) = false := by
      rcases Nat.lt_or_ge (c :: xs).length m.length with hlen | hlen
      · exact borderFree_no_span m hbf (c :: xs) ys (by simp) hlen
      · cases hp : m.isPrefixOf (c :: xs ++ m ++ ys) with
        | false => rfl
        | true =>
          exfalso
          have hx : m.isPrefixOf (c :: xs) = true := by
            apply isPrefixOf_append_left m (c :: xs) (m ++ ys) _ hlen
            simpa [List.append_assoc] using hp
          rw [hx] at hocc
          exact Bool.noConfusion hocc.1
    simp only [List.cons_append] at hnp ⊢
    have hnp' : ¬ (m.isPrefixOf (c :: (xs ++ m ++ ys)) = true) := by
      intro hc
      rw [hnp] at hc
      exact Bool.noConfusion hc
    rw [findMarker, if_neg hnp']
    rw [ih ys hocc.2]

/-- A QA record extracted from one response chunk (before the document id is
attached by `QAGenerator.process_documents`). -/
structure QAPair where
  question : String
  answer : String
deriving DecidableEq, Repr

theorem qMark_ne_nil : qMark ≠ [] := by decide

theorem aMark_ne_nil : aMark ≠ [] := by decide

theorem qMark_borderFree : borderFree qMark := by
  intro j h1 h2
  have h9 : qMark.length = 9 := by decide
  rw [h9] at h2
  interval_cases j <;> decide

theorem aMark_borderFree : borderFree aMark := by
  intro j h1 h2
  have h7 : aMark.length = 7 := by decide
  rw [h7] at h2
  interval_cases j <;> decide

/-- Modelled from the spec: the pairing scan of `parse_qa_pairs`
(`utils/llm_processing.py`, not among the provided sources).  Positioned just
after a `"Question:"` marker, take the text up to the next `"Answer:"` marker
as the question; the answer runs to the next `"Question:"` marker (resuming
the scan there) or to the end of the response.  A question with no following
`"Answer:"` marker is dropped silently. -/
def parseFromQ (rest1 : List Char) : List (List Char × List Char) :=
  match h1 : findMarker aMark rest1 with
  | none => []
  | some (qt, rest2) =>
    match h2 : findMarker qMark rest2 with
    | none => [(qt, rest2)]
    | some (at1, rest3) => (qt, at1) :: parseFromQ rest3
termination_by rest1.length
decreasing_by
  have e1 := findMarker_some_length aMark rest1 qt rest2 h1
  have e2 := findMarker_some_length qMark rest2 at1 rest3 h2
  have h7 : aMark.length = 7 := by decide
  have h9 : qMark.length = 9 := by decide
  omega

/-- Modelled from the spec: `parse_qa_pairs` (`utils/llm_processing.py`, not
among the provided sources).  Scans the raw LLM response for
`"Question: ... Answer: ..."` units via the positional marker scan and returns
the ordered list of pairs with both sides stripped of surrounding whitespace;
it never raises. -/
def parse_qa_pairs (response : String) : List QAPair :=
  let raw : List (List Char × List Char) :=
    match findMarker qMark response.toList with
    | none => []
    | some (_, rest1) => parseFromQ rest1
  raw.map (fun p => ⟨String.mk (pyStrip p.1), String.mk (pyStrip p.2)⟩)

theorem parseFromQ_no_answer (r : List Char) (h : findMarker aMark r = none) :
    parseFromQ r = [] := by
  rw [parseFromQ]
  split
  · rfl
  · rename_i qt rest2 h1
    rw [h] at h1
    exact Option.noConfusion h1

theorem parseFromQ_last (r qt rest2 : List Char)
    (h1 : findMarker aMark r = some (qt, rest2))
    (h2 : findMarker qMark rest2 = none) : parseFromQ r = [(qt, rest2)] := by
  rw [parseFromQ]
  split
  · rename_i h1'
    rw [h1] at h1'
    exact Option.noConfusion h1'
  · rename_i qt' rest2' h1'
    rw [h1] at h1'
    injection h1' with h1''
    obtain ⟨hq, hr⟩ := Prod.mk.injEq _ _ _ _ ▸ h1''
    subst hq
    subst hr
    split
    · rfl
    · rename_i at1 rest3 h2'
      rw [h2] at h2'
      exact Option.noConfusion h2'

theorem parseFromQ_cons (r qt rest2 at1 rest3 : List Char)
    (h1 : findMarker aMark r = some (qt, rest2))
    (h2 : findMarker qMark rest2 = some (at1, rest3)) :
    parseFromQ r = (qt, at1) :: parseFromQ rest3 := by
  rw [parseFromQ]
  split
  · rename_i h1'
    rw [h1] at h1'
    exact Option.noConfusion h1'
  · rename_i qt' rest2' h1'
    rw [h1] at h1'
    injection h1' with h1''
    obtain ⟨hq, hr⟩ := Prod.mk.injEq _ _ _ _ ▸ h1''
    subst hq
    subst hr
    split
    · rename_i h2'
      rw [h2] at h2'
      exact Option.noConfusion h2'
    · rename_i at1' rest3' h2'
      rw [h2] at h2'
      injection h2' with h2''
      obtain ⟨ha, hr3⟩ := Prod.mk.injEq _ _ _ _ ▸ h2''
      subst ha
      subst hr3
      rfl

/-- Rendering of a response containing exactly the given well-formed
`Question/Answer` units, in order. -/
def renderQA : List (List Char × List Char) → List Char
  | [] => []
  | (q, a) :: rest => qMark ++ q ++ aMark ++ a ++ renderQA rest

/-- A payload (question or answer text) is well formed when it is stable
under stripping and contains neither marker. -/
def wfPayload (cs : List Char) : Prop :=
  pyStrip cs = cs ∧ occursB qMark cs = false ∧ occursB aMark cs = false

instance wfPayload_dec (cs : List Char) : Decidable (wfPayload cs) :=
  inferInstanceAs (Decidable (_ ∧ _ ∧ _))

/-- Right-assoc variant of `findMarker_append`. -/
theorem findMarker_append2 (m : List Char) (hm : m ≠ []) (hbf : borderFree m)
    (xs ys : List Char) (hocc : occursB m xs = false) :
    findMarker m (xs ++ (m ++ ys)) = some (xs, ys) := by
  rw [← List.append_assoc]
  exact findMarker_append m hm hbf xs ys hocc

theorem parseFromQ_render :
    ∀ (ps : List (List Char × List Char)) (q a E : List Char),
      occursB aMark q = false → occursB qMark a = false →
      (∀ p ∈ ps, occursB aMark p.1 = false ∧ occursB qMark p.2 = false) →
      (E = [] ∨ ∃ qt, E = qMark ++ qt ∧ occursB aMark qt = false) →
      parseFromQ (q ++ aMark ++ a ++ renderQA ps ++ E) = (q, a) :: ps := by
  intro ps
  induction ps with
  | nil =>
    intro q a E hq ha _ hE
    simp only [renderQA, List.append_nil, List.append_assoc]
    rcases hE with hE | ⟨qt, hqt, hqtA⟩
    · subst hE
      simp only [List.append_nil]
      exact parseFromQ_last _ q a
        (findMarker_append2 aMark aMark_ne_nil aMark_borderFree q a hq)
        (not_occursB_of_drop qMark a ha)
    · subst hqt
      rw [parseFromQ_cons _ q (a ++ (qMark ++ qt)) a qt
        (findMarker_append2 aMark aMark_ne_nil aMark_borderFree q _ hq)
        (findMarker_append2 qMark qMark_ne_nil qMark_borderFree a qt ha)]
      rw [parseFromQ_no_answer qt (not_occursB_of_drop aMark qt hqtA)]
  | cons p2 rest ih =>
    intro q a E hq ha hps hE
    obtain ⟨q2, a2⟩ := p2
    have hp2 := hps ⟨q2, a2⟩ (by simp)
    have hrest : ∀ p ∈ rest, occursB aMark p.1 = false ∧ occursB qMark p.2 = false :=
      fun p hp => hps p (by simp [hp])
    simp only [renderQA, List.append_assoc]
    rw [parseFromQ_cons _ q
        (a ++ (qMark ++ (q2 ++ (aMark ++ (a2 ++ (renderQA rest ++ E))))))
        a (q2 ++ (aMark ++ (a2 ++ (renderQA rest ++ E))))
      (findMarker_append2 aMark aMark_ne_nil aMark_borderFree q _ hq)
      (findMarker_append2 qMark qMark_ne_nil qMark_borderFree a _ ha)]
    have hih := ih q2 a2 E hp2.1 hp2.2 hrest hE
    simp only [List.append_assoc] at hih
    rw [hih]

theorem parse_qa_pairs_eq_some (s : String) (pre rest1 : List Char)
    (h : findMarker qMark s.toList = some (pre, rest1)) :
    parse_qa_pairs s = (parseFromQ rest1).map
      (fun p => ⟨String.mk (pyStrip p.1), String.mk (pyStrip p.2)⟩) := by
  unfold parse_qa_pairs
  rw [h]

theorem parse_qa_pairs_eq_none (s : String)
    (h : findMarker qMark s.toList = none) : parse_qa_pairs s = [] := by
  unfold parse_qa_pairs
  rw [h]
  rfl

theorem toList_mk (l : List Char) : (String.mk l).toList = l := rfl

/-- On a response consisting of `N` well-formed `Question/Answer` units the
parser returns exactly those `N` pairs, in order. -/
theorem parse_qa_pairs_render (ps : List (List Char × List Char))
    (h : ∀ p ∈ ps, wfPayload p.1 ∧ wfPayload p.2) :
    parse_qa_pairs (String.mk (renderQA ps))
      = ps.map (fun p => ⟨String.mk p.1, String.mk p.2⟩) := by
  have hmap : ∀ raw : List (List Char × List Char), raw = ps →
      raw.map (fun p => (⟨String.mk (pyStrip p.1), String.mk (pyStrip p.2)⟩ : QAPair))
        = ps.map (fun p => ⟨String.mk p.1, String.mk p.2⟩) := by
    intro raw hraw
    subst hraw
    apply List.map_congr_left
    intro p hp
    obtain ⟨⟨h1, _, _⟩, ⟨h2, _, _⟩⟩ := h p hp
    rw [h1, h2]
  cases ps with
  | nil =>
    rw [parse_qa_pairs_eq_none _ (by rw [toList_mk]; rfl)]
    rfl
  | cons p rest =>
    obtain ⟨q, a⟩ := p
    obtain ⟨⟨_, _, hqA⟩, ⟨_, haQ, _⟩⟩ := h (q, a) (by simp)
    have hrest : ∀ p ∈ rest, occursB aMark p.1 = false ∧ occursB qMark p.2 = false := by
      intro p hp
      obtain ⟨⟨_, _, u1⟩, ⟨_, u2, _⟩⟩ := h p (by simp [hp])
      exact ⟨u1, u2⟩
    have hpf := parseFromQ_render rest q a [] hqA haQ hrest (Or.inl rfl)
    rw [List.append_nil] at hpf
    have hshape : (String.mk (renderQA ((q, a) :: rest))).toList
        = qMark ++ (q ++ (aMark ++ (a ++ renderQA rest))) := by
      rw [toList_mk]
      simp [renderQA, List.append_assoc]
    rw [parse_qa_pairs_eq_some _ [] (q ++ (aMark ++ (a ++ renderQA rest)))
      (by rw [hshape]; exact findMarker_of_prefix qMark _ qMark_ne_nil)]
    apply hmap
    simp only [List.append_assoc] at hpf
    exact hpf

/-- A trailing `"Question:"` with no following `"Answer:"` is silently
discarded: rendering `N` well-formed units plus a dangling question yields
exactly the `N` complete pairs. -/
theorem parse_qa_pairs_render_trailing (ps : List (List Char × List Char))
    (qt : List Char) (h : ∀ p ∈ ps, wfPayload p.1 ∧ wfPayload p.2)
    (hqt : wfPayload qt) :
    parse_qa_pairs (String.mk (renderQA ps ++ qMark ++ qt))
      = ps.map (fun p => ⟨String.mk p.1, String.mk p.2⟩) := by
  have hmap : ∀ raw : List (List Char × List Char), raw = ps →
      raw.map (fun p => (⟨String.mk (pyStrip p.1), String.mk (pyStrip p.2)⟩ : QAPair))
        = ps.map (fun p => ⟨String.mk p.1, String.mk p.2⟩) := by
    intro raw hraw
    subst hraw
    apply List.map_congr_left
    intro p hp
    obtain ⟨⟨h1, _, _⟩, ⟨h2, _, _⟩⟩ := h p hp
    rw [h1, h2]
  obtain ⟨_, _, hqtA⟩ := hqt
  cases ps with
  | nil =>
    rw [parse_qa_pairs_eq_some _ [] qt
      (by rw [toList_mk]; simp only [renderQA, List.nil_append]
          exact findMarker_of_prefix qMark qt qMark_ne_nil)]
    rw [parseFromQ_no_answer qt (not_occursB_of_drop aMark qt hqtA)]
    rfl
  | cons p rest =>
    obtain ⟨q, a⟩ := p
    obtain ⟨⟨_, _, hqA⟩, ⟨_, haQ, _⟩⟩ := h (q, a) (by simp)
    have hrest : ∀ p ∈ rest, occursB aMark p.1 = false ∧ occursB qMark p.2 = false := by
      intro p hp
      obtain ⟨⟨_, _, u1⟩, ⟨_, u2, _⟩⟩ := h p (by simp [hp])
      exact ⟨u1, u2⟩
    have hpf := parseFromQ_render rest q a (qMark ++ qt) hqA haQ hrest
      (Or.inr ⟨qt, rfl, hqtA⟩)
    have hshape : (String.mk (renderQA ((q, a) :: rest) ++ qMark ++ qt)).toList
        = qMark ++ (q ++ (aMark ++ (a ++ (renderQA rest ++ (qMark ++ qt))))) := by
      rw [toList_mk]
      simp [renderQA, List.append_assoc]
    rw [parse_qa_pairs_eq_some _ []
      (q ++ (aMark ++ (a ++ (renderQA rest ++ (qMark ++ qt)))))
      (by rw [hshape]; exact findMarker_of_prefix qMark _ qMark_ne_nil)]
    apply hmap
    simp only [List.append_assoc] at hpf
    exact hpf

/-! ## Generators (`synthetic_data_kit/generators/*.py`) -/

/-- The generation settings read from config (`generation_config.get(...)`,
with the defaults used by the sources: `chunk_size` 4000, `overlap` 200,
`batch_size` 32). -/
structure GenConfig where
  chunk_size : Nat := 4000
  overlap : Nat := 200
  batch_size : Nat := 32
deriving DecidableEq, Repr

/-- A system/user prompt pair from config. -/
structure SPrompt where
  system : String
  user : String
deriving DecidableEq, Repr

/-- Modelled from the spec: `split_into_chunks` (`utils/text.py`, not among
the provided sources).  Splits `text` into chunks of `chunk_size` characters
starting every `chunk_size - overlap` characters, so that consecutive chunks
overlap by `overlap` and text shorter than `chunk_size` yields exactly one
chunk (empty text yields none). -/
def split_into_chunks (text : String) (chunk_size overlap : Nat) : List String :=
  (pyRange 0 text.length (chunk_size - overlap)).map
    (fun s => String.mk ((text.toList.drop s).take chunk_size))

/-- The message list built by `BaseGenerator.process_documents` for one
document: a system message plus the user template with `\x7btext\x7d` replaced by
the document text. -/
def buildMessages (prompt : SPrompt) (d : PyDoc) : List ChatMsg :=
  [⟨"system", prompt.system⟩, ⟨"user", pyFormatText prompt.user d.text⟩]

/-- An LLM backend: `client.batch_completion` applied to one batch of message
lists, which may raise (`.error`). -/
def Backend : Type := List (List ChatMsg) → Except PyErr (List String)

/-- The backend assumed by the spec's contract: order-preserving, one response
string per input message list, never failing. -/
def pureBackend (g : List ChatMsg → String) : Backend :=
  fun ms => .ok (ms.map g)

/-- The batch loop of `BaseGenerator.process_documents` (lines 112-138): each
batch is submitted in order and its responses extend the accumulator; there is
no `try/except`, so a raising batch call aborts the whole loop. -/
def runBatches (backend : Backend) : List (List (List ChatMsg)) → Except PyErr (List String)
  | [] => .ok []
  | bt :: rest => do
    let rs ← backend bt
    let rest' ← runBatches backend rest
    pure (rs ++ rest')

/-- The part of `BaseGenerator.process_documents` up to the point where the collected
responses are handed to `process_responses`. -/
def base_collect_responses (backend : Backend) (prompt : SPrompt) (b : Nat)
    (docs : List PyDoc) : Except PyErr (List String) :=
  runBatches backend (batchesOf (docs.map (buildMessages prompt)) b)

/-- The `ExtractKnowledgeGenerator.process_responses` result record. -/
structure EKResult where
  id : String
  text : String
  original_text : String
  original_length : Nat
  knowledge_length : Nat
  compression_ratio : ℚ
deriving DecidableEq, Repr

/-- Embedding of `ExtractKnowledgeGenerator.process_responses` (lines 36-54): zips the
documents with the responses; the dict literal reads `doc["id"]` first and
then computes `len(knowledge) / len(doc["text"])` with no zero guard. -/
def ek_process_responses (docs : List PyDoc) (responses : List String) :
    Except PyErr (List EKResult) :=
  collectE
    (fun dr => do
      let i ← dr.1.getId
      let r ← pyDiv dr.2.length dr.1.text.length
      pure ⟨i, dr.2, dr.1.text, dr.1.text.length, dr.2.length, r⟩)
    (docs.zip responses)

/-- The `WikipediaRephraseGenerator.process_responses` result record. -/
structure WikiResult where
  id : String
  text : String
deriving DecidableEq, Repr

/-- Embedding of `WikipediaRephraseGenerator.process_responses` (lines 36-49). -/
def wiki_process_responses (docs : List PyDoc) (responses : List String) :
    Except PyErr (List WikiResult) :=
  collectE
    (fun dr => do
      let i ← dr.1.getId
      pure ⟨i, dr.2⟩)
    (docs.zip responses)

/-- Embedding of `ExtractKnowledgeGenerator.process_documents` (inherited from
`BaseGenerator`): dispatch all prompts in batches, then assemble results. -/
def ek_process_documents (backend : Backend) (prompt : SPrompt) (b : Nat)
    (docs : List PyDoc) : Except PyErr (List EKResult) := do
  let responses ← base_collect_responses backend prompt b docs
  ek_process_responses docs responses

/-- Embedding of `WikipediaRephraseGenerator.process_documents` (inherited from
`BaseGenerator`). -/
def wiki_process_documents (backend : Backend) (prompt : SPrompt) (b : Nat)
    (docs : List PyDoc) : Except PyErr (List WikiResult) := do
  let responses ← base_collect_responses backend prompt b docs
  wiki_process_responses docs responses

/-- The `DistillGenerator.process_documents` result record. -/
structure DistillResult where
  original_text : String
  distilled_text : String
  original_length : Nat
  distilled_length : Nat
  compression_ratio : ℚ
deriving DecidableEq, Repr

/-- Embedding of `DistillGenerator.process_documents` (lines 48-103): one `client.generate`
call per document; the compression ratio is guarded
(`... if len(doc_text) > 0 else 0`), so this generator never divides by
zero.  `g` is the LLM completion on the formatted distill prompt. -/
def distill_process_documents (g : String → String) (tmpl : String)
    (docs : List PyDoc) : List DistillResult :=
  docs.map (fun d =>
    let distilled := g (pyFormatText tmpl d.text)
    ⟨d.text, distilled, d.text.length, distilled.length,
      if d.text.length > 0 then (distilled.length : ℚ) / (d.text.length : ℚ) else 0⟩)

/-- The `KnowledgeListGenerator.process_documents` result record. -/
structure KLResult where
  id : String
  text : String
  original_length : Nat
  knowledge_length : Nat
  compression_ratio : ℚ
deriving DecidableEq, Repr

/-- Embedding of `KnowledgeListGenerator.process_documents` (lines 55-115): one
`chat_completion` per document; the result dict reads `doc["id"]` and then
computes `len(knowledge) / len(doc_text)` with no zero guard. -/
def kl_process_documents (g : String → String) (tmpl : String)
    (docs : List PyDoc) : Except PyErr (List KLResult) :=
  collectE
    (fun d => do
      let knowledge := g (pyFormatText tmpl d.text)
      let i ← d.getId
      let r ← pyDiv knowledge.length d.text.length
      pure ⟨i, knowledge, d.text.length, knowledge.length, r⟩)
    docs

/-- Python `str(e)` for the logged exception. -/
def pyErrMsg : PyErr → String
  | .keyError k => "'" ++ k ++ "'"
  | .zeroDivisionError => "division by zero"
  | .valueError m => m
  | .fileNotFoundError m => m
  | .exception m => m

/-- The per-batch `try/except` loop of `QAGenerator.generate_qa_pairs`
(lines 146-198): the text is chunked, one system message is built per chunk,
and each batch is dispatched; on success each response is parsed and the
pairs extend the accumulator, on an exception the batch is skipped (its error
message is printed only when `verbose`) and the loop continues.  Returns the
collected pairs together with the logged error messages.
`qaMessages` is the per-chunk message list built at lines 111-122: one system
message per chunk of the document text. -/
def qaMessages (qaTmpl text : String) (cfg : GenConfig) : List (List ChatMsg) :=
  (split_into_chunks text cfg.chunk_size cfg.overlap).map
    (fun ch => [(⟨"system", pyFormatText qaTmpl ch⟩ : ChatMsg)])

/-- The chunk/batch/parse loop of `QAGenerator.generate_qa_pairs`. -/
def generate_qa_pairs_model (backend : Backend) (qaTmpl : String)
    (text : String) (cfg : GenConfig) (verbose : Bool) :
    List QAPair × List String :=
  (batchesOf (qaMessages qaTmpl text cfg) cfg.batch_size).foldl
    (fun acc bt =>
      match backend bt with
      | .ok rs => (acc.1 ++ rs.flatMap (fun r => parse_qa_pairs r), acc.2)
      | .error e => (acc.1, acc.2 ++ if verbose then [pyErrMsg e] else []))
    ([], [])

/-- A QA pair with the source document id attached
(`qa_pair["id"] = doc["id"]`). -/
structure QAPairId where
  question : String
  answer : String
  id : String
deriving DecidableEq, Repr

/-- The output dict `{"qa_pairs": ...}` of `QAGenerator.process_documents`. -/
structure QAOutput where
  qa_pairs : List QAPairId
deriving DecidableEq, Repr

/-- Embedding of `QAGenerator.process_documents` (lines 204-253): per document, generate
the pairs via the chunked batch loop, then attach `doc["id"]` to every pair
(`KeyError` only if at least one pair was produced), concatenating across
documents. -/
def qa_process_documents (backend : Backend) (qaTmpl : String)
    (cfg : GenConfig) (verbose : Bool) (docs : List PyDoc) :
    Except PyErr QAOutput := do
  let pairLists ← collectE
    (fun d => do
      let pairs := (generate_qa_pairs_model backend qaTmpl d.text cfg verbose).1
      collectE (fun pr => do
        let i ← d.getId
        pure (⟨pr.question, pr.answer, i⟩ : QAPairId)) pairs)
    docs
  pure ⟨pairLists.flatten⟩

/-! ## Output stage (`synthetic_data_kit/core/create.py`) -/

/-- The `create.process_file` document construction (lines 82-86): for a `.lance`
input the dataset rows are used; for a plain file a single record
`{"text": <file content>, "image": None}` is built — with no `"id"` key. -/
def create_build_documents (isLance : Bool) (lanceDocs : List PyDoc)
    (fileContent : String) : List PyDoc :=
  if isLance then lanceDocs
  else [{ text := fileContent, id := none, image := some none }]

/-- The arguments passed to `json.dump` for the output file. -/
structure JsonDumpArgs where
  indent : Nat
  ensure_ascii : Bool
deriving DecidableEq, Repr

/-- The `json.dump` call made by `create.process_file` per content type
(lines 98-176): every branch passes `indent=2`; the `"qa"` branch does not
pass `ensure_ascii=False` (so the Python default `ensure_ascii=True`
applies), the other four branches pass `ensure_ascii=False`. -/
def create_dump_args : String → Option JsonDumpArgs
  | "qa" => some ⟨2, true⟩
  | "distill" => some ⟨2, false⟩
  | "knowledge-list" => some ⟨2, false⟩
  | "extract-knowledge" => some ⟨2, false⟩
  | "wikipedia-rephrase" => some ⟨2, false⟩
  | _ => none

/-- The five content types accepted by `create.process_file`. -/
def contentTypes : List String :=
  ["qa", "distill", "knowledge-list", "extract-knowledge", "wikipedia-rephrase"]

/-- Lower-case hex digit, as used by Python's `json` `\uXXXX` escapes. -/
def hexDigit (n : Nat) : Char :=
  if n % 16 < 10 then Char.ofNat (48 + n % 16) else Char.ofNat (87 + n % 16)

/-- A `\uXXXX` escape for a code unit below `0x10000`. -/
def uEscape (n : Nat) : List Char :=
  ['\\', 'u', hexDigit (n / 4096), hexDigit (n / 256), hexDigit (n / 16), hexDigit n]

/-- Python `json` string-character encoding with `ensure_ascii=True`
(`py_encode_basestring_ascii`): the named short escapes, and every character
outside printable ASCII becomes `\uXXXX` (a surrogate pair above `0xFFFF`). -/
def escCharAscii (c : Char) : List Char :=
  if c = '"' then ['\\', '"']
  else if c = '\\' then ['\\', '\\']
  else if c = '\n' then ['\\', 'n']
  else if c = '\r' then ['\\', 'r']
  else if c = '\t' then ['\\', 't']
  else if c = '\x08' then ['\\', 'b']
  else if c = '\x0c' then ['\\', 'f']
  else if 0x20 ≤ c.toNat ∧ c.toNat ≤ 0x7e then [c]
  else if c.toNat < 0x10000 then uEscape c.toNat
  else uEscape (0xd800 + (c.toNat - 0x10000) / 0x400)
        ++ uEscape (0xdc00 + (c.toNat - 0x10000) % 0x400)

/-- Python `json` string-character encoding with `ensure_ascii=False`
(`py_encode_basestring`): only quote, backslash and control characters are
escaped; everything else — in particular every non-ASCII character — is
emitted verbatim. -/
def escCharRaw (c : Char) : List Char :=
  if c = '"' then ['\\', '"']
  else if c = '\\' then ['\\', '\\']
  else if c = '\n' then ['\\', 'n']
  else if c = '\r' then ['\\', 'r']
  else if c = '\t' then ['\\', 't']
  else if c = '\x08' then ['\\', 'b']
  else if c = '\x0c' then ['\\', 'f']
  else if c.toNat < 0x20 then uEscape c.toNat
  else [c]

/-- The serialized form of one string under the given `json.dump` arguments. -/
def py_json_dump_string (args : JsonDumpArgs) (s : String) : String :=
  String.mk ('"' :: s.toList.flatMap
    (if args.ensure_ascii then escCharAscii else escCharRaw) ++ ['"'])

/-- ASCII test used in the output claims. -/
def isAsciiCh (c : Char) : Bool := c.toNat ≤ 0x7f

/-! ## Parquet ingestion (`parsers/parquet_parser.py`, `core/ingest.py`) -/

/-- One row's `'text'` cell: `NaN`/`None` (`.na`) or the `str()`-converted
value. -/
inductive PCell where
  | na
  | val (s : String)
deriving DecidableEq, Repr

/-- A parquet file as read by `pd.read_parquet`: its column names and, for
each row, the `'text'` cell (the only cell `ParquetParser.parse` reads). -/
structure PDataFrame where
  columns : List String
  rows : List PCell
deriving DecidableEq, Repr

/-- Python `str(row['text']) if pd.notna(row['text']) else ""`. -/
def cellText : PCell → String
  | .na => ""
  | .val s => s

/-- Python `if text_content.strip():` — keep the row only when the stripped text is
non-empty (Python truthiness of the stripped string). -/
def keepRow (c : PCell) : Bool :=
  ¬ (pyStrip (cellText c).toList).isEmpty

/-- The error message raised when the `'text'` column is missing. -/
def parquetColMsg (cols : List String) : String :=
  "Parquet file must contain a 'text' column. Available columns: "
    ++ String.intercalate ", " cols

namespace ParquetParser

/-- Embedding of `ParquetParser.parse` (lines 14-49): check the `'text'` column first and
raise `ValueError` listing the available columns if absent; otherwise keep the
rows with non-whitespace text as `{"text": ...}` records, falling back to
`[{"text": ""}]` when none survive. -/
def parse (df : PDataFrame) : Except PyErr (List PyDoc) :=
  if "text" ∈ df.columns then
    let result := df.rows.foldl
      (fun acc c =>
        if keepRow c then acc ++ [({ text := cellText c } : PyDoc)] else acc) []
    .ok (if result.isEmpty then [({ text := "" } : PyDoc)] else result)
  else .error (.valueError (parquetColMsg df.columns))

end ParquetParser

/-- The index of the last `'.'` in a character list, if any. -/
def lastDotIdx : List Char → Option Nat
  | [] => none
  | c :: rest =>
    match lastDotIdx rest with
    | some k => some (k + 1)
    | none => if c = '.' then some 0 else none

/-- Python `os.path.splitext(p)[1]`: the extension (with its dot) of the part after
the last `'/'`; empty when there is no dot or only leading dots. -/
def splitextExt (p : String) : String :=
  let base := (p.toList.reverse.takeWhile (fun c => c ≠ '/')).reverse
  match lastDotIdx base with
  | none => ""
  | some k => if (base.take k).all (fun c => c = '.') then "" else String.mk (base.drop k)

/-- Python `str.lower()` (ASCII behaviour). -/
def lowerStr (s : String) : String := String.mk (s.toList.map Char.toLower)

/-- The error message for a non-parquet extension. -/
def extErrMsg (ext : String) : String :=
  "Only .parquet files are supported. Got: " ++ ext
    ++ "\nPlease provide a parquet file with a 'text' column."

/-- Embedding of the ingest parser dispatch (`ingest.py` lines 15-32, spelled with an underscore in the source): reject any extension other than
`.parquet` (lower-cased) with `ValueError` before checking file existence;
then raise `FileNotFoundError` for a missing file. -/
def determineParser (p : String) (fileExists : Bool) : Except PyErr Unit :=
  let ext := lowerStr (splitextExt p)
  if ext ≠ ".parquet" then .error (.valueError (extErrMsg ext))
  else if ¬ fileExists then .error (.fileNotFoundError ("Parquet file not found: " ++ p))
  else .ok ()

/-- The part of `ingest.process_file` up to parsing (lines 35-65): the parser is
determined (extension validated) before the file content `df` is ever
touched. -/
def ingest_process_file (p : String) (fileExists : Bool) (df : PDataFrame) :
    Except PyErr (List PyDoc) := do
  let _ ← determineParser p fileExists
  ParquetParser.parse df

/-! ## Supporting lemmas about the generator loops -/

theorem foldl_qa_eq (backend : Backend) (verbose : Bool) :
    ∀ (bts : List (List (List ChatMsg))) (acc : List QAPair × List String),
      bts.foldl
        (fun acc bt =>
          match backend bt with
          | .ok rs => (acc.1 ++ rs.flatMap (fun r => parse_qa_pairs r), acc.2)
          | .error e => (acc.1, acc.2 ++ if verbose then [pyErrMsg e] else []))
        acc
      = (acc.1 ++ (bts.map (fun bt =>
            match backend bt with
            | .ok rs => rs.flatMap (fun r => parse_qa_pairs r)
            | .error _ => [])).flatten,
         acc.2 ++ (bts.map (fun bt =>
            match backend bt with
            | .ok _ => ([] : List String)
            | .error e => if verbose then [pyErrMsg e] else [])).flatten) := by
  intro bts
  induction bts with
  | nil => intro acc; simp
  | cons bt rest ih =>
    intro acc
    simp only [List.foldl_cons, List.map_cons, List.flatten_cons]
    cases hb : backend bt with
    | ok rs =>
      rw [ih]
      simp [List.append_assoc]
    | error e =>
      rw [ih]
      simp [List.append_assoc]

/-- Closed form of the QA batch loop: each batch contributes its parsed pairs
when the call succeeds and nothing when it raises, and the per-batch error
messages are logged exactly when `verbose`. -/
theorem generate_qa_pairs_model_eq (backend : Backend) (qaTmpl text : String)
    (cfg : GenConfig) (verbose : Bool) :
    generate_qa_pairs_model backend qaTmpl text cfg verbose
      = (((batchesOf (qaMessages qaTmpl text cfg) cfg.batch_size).map (fun bt =>
            match backend bt with
            | .ok rs => rs.flatMap (fun r => parse_qa_pairs r)
            | .error _ => [])).flatten,
         ((batchesOf (qaMessages qaTmpl text cfg) cfg.batch_size).map (fun bt =>
            match backend bt with
            | .ok _ => ([] : List String)
            | .error e => if verbose then [pyErrMsg e] else [])).flatten) := by
  unfold generate_qa_pairs_model
  rw [foldl_qa_eq]
  simp

theorem runBatches_pure (g : List ChatMsg → String) :
    ∀ bts, runBatches (pureBackend g) bts
      = .ok ((bts.map (fun bt => bt.map g)).flatten) := by
  intro bts
  induction bts with
  | nil => rfl
  | cons bt rest ih =>
    simp only [runBatches, pureBackend]
    rw [ih]
    rfl

/-- With an order-preserving, one-string-per-input backend, the base batch
loop collects exactly one response per document, in order. -/
theorem base_collect_pure (g : List ChatMsg → String) (prompt : SPrompt)
    (b : Nat) (docs : List PyDoc) (hb : 0 < b) :
    base_collect_responses (pureBackend g) prompt b docs
      = .ok (docs.map (fun d => g (buildMessages prompt d))) := by
  unfold base_collect_responses
  rw [runBatches_pure]
  rw [← List.map_flatten, batchesOf_join b hb, List.map_map]
  rfl

theorem collectE_ok {α β : Type} (f : α → Except PyErr β) (g : α → β) :
    ∀ l : List α, (∀ x ∈ l, f x = .ok (g x)) → collectE f l = .ok (l.map g) := by
  intro l
  induction l with
  | nil => intro _; rfl
  | cons x xs ih =>
    intro h
    unfold collectE
    rw [h x (by simp), ih (fun y hy => h y (by simp [hy]))]
    rfl

theorem wiki_responses_ok (docs : List PyDoc) (responses : List String)
    (hid : ∀ d ∈ docs, d.id.isSome) :
    wiki_process_responses docs responses
      = .ok ((docs.zip responses).map (fun dr => ⟨dr.1.id.getD "", dr.2⟩)) := by
  unfold wiki_process_responses
  apply collectE_ok
  intro dr hdr
  have hmem := (List.of_mem_zip hdr).1
  obtain ⟨v, hv⟩ := Option.isSome_iff_exists.mp (hid dr.1 hmem)
  simp [PyDoc.getId, hv]

theorem ek_responses_ok (docs : List PyDoc) (responses : List String)
    (hid : ∀ d ∈ docs, d.id.isSome) (htext : ∀ d ∈ docs, d.text ≠ "") :
    ek_process_responses docs responses
      = .ok ((docs.zip responses).map (fun dr =>
          ⟨dr.1.id.getD "", dr.2, dr.1.text, dr.1.text.length, dr.2.length,
            (dr.2.length : ℚ) / (dr.1.text.length : ℚ)⟩)) := by
  unfold ek_process_responses
  apply collectE_ok
  intro dr hdr
  have hmem := (List.of_mem_zip hdr).1
  obtain ⟨v, hv⟩ := Option.isSome_iff_exists.mp (hid dr.1 hmem)
  have hlen : dr.1.text.length ≠ 0 := by
    intro h0
    exact htext dr.1 hmem (by
      cases hstr : dr.1.text with
      | mk data =>
        rw [hstr] at h0
        simp [String.length] at h0
        rw [h0])
  simp [PyDoc.getId, hv, pyDiv, hlen]
  rfl

theorem zip_self_map {α β : Type} (h : α → β) :
    ∀ l : List α, l.zip (l.map h) = l.map (fun a => (a, h a)) := by
  intro l
  induction l with
  | nil => rfl
  | cons x xs ih => simp [ih]

theorem wiki_pd_pure (g : List ChatMsg → String) (prompt : SPrompt) (b : Nat)
    (docs : List PyDoc) (hb : 0 < b) (hid : ∀ d ∈ docs, d.id.isSome) :
    wiki_process_documents (pureBackend g) prompt b docs
      = .ok (docs.map (fun d =>
          ⟨d.id.getD "", g (buildMessages prompt d)⟩)) := by
  unfold wiki_process_documents
  rw [base_collect_pure g prompt b docs hb]
  show wiki_process_responses docs (docs.map fun d => g (buildMessages prompt d)) = _
  rw [wiki_responses_ok docs _ hid, zip_self_map, List.map_map]
  rfl

theorem ek_pd_pure (g : List ChatMsg → String) (prompt : SPrompt) (b : Nat)
    (docs : List PyDoc) (hb : 0 < b) (hid : ∀ d ∈ docs, d.id.isSome)
    (htext : ∀ d ∈ docs, d.text ≠ "") :
    ek_process_documents (pureBackend g) prompt b docs
      = .ok (docs.map (fun d =>
          ⟨d.id.getD "", g (buildMessages prompt d), d.text, d.text.length,
            (g (buildMessages prompt d)).length,
            ((g (buildMessages prompt d)).length : ℚ) / (d.text.length : ℚ)⟩)) := by
  unfold ek_process_documents
  rw [base_collect_pure g prompt b docs hb]
  show ek_process_responses docs (docs.map fun d => g (buildMessages prompt d)) = _
  rw [ek_responses_ok docs _ hid htext, zip_self_map, List.map_map]
  rfl

/-! ## Supporting lemmas about JSON string escaping -/

theorem hexDigit_ascii (n : Nat) : (hexDigit n).toNat ≤ 0x7f := by
  unfold hexDigit
  have hlt : n % 16 < 16 := Nat.mod_lt _ (by omega)
  generalize hg : n % 16 = m at hlt ⊢
  interval_cases m <;> decide

theorem uEscape_ascii (n : Nat) : ∀ d ∈ uEscape n, d.toNat ≤ 0x7f := by
  intro d hd
  unfold uEscape at hd
  simp only [List.mem_cons, List.not_mem_nil, or_false] at hd
  rcases hd with rfl | rfl | rfl | rfl | rfl | rfl
  · decide
  · decide
  · exact hexDigit_ascii _
  · exact hexDigit_ascii _
  · exact hexDigit_ascii _
  · exact hexDigit_ascii _

theorem escCharAscii_ascii (c : Char) : ∀ d ∈ escCharAscii c, d.toNat ≤ 0x7f := by
  intro d hd
  unfold escCharAscii at hd
  split_ifs at hd with h1 h2 h3 h4 h5 h6 h7 h8 h9
  · simp only [List.mem_cons, List.not_mem_nil, or_false] at hd
    rcases hd with rfl | rfl <;> decide
  · simp only [List.mem_cons, List.not_mem_nil, or_false] at hd
    rcases hd with rfl | rfl <;> decide
  · simp only [List.mem_cons, List.not_mem_nil, or_false] at hd
    rcases hd with rfl | rfl <;> decide
  · simp only [List.mem_cons, List.not_mem_nil, or_false] at hd
    rcases hd with rfl | rfl <;> decide
  · simp only [List.mem_cons, List.not_mem_nil, or_false] at hd
    rcases hd with rfl | rfl <;> decide
  · simp only [List.mem_cons, List.not_mem_nil, or_false] at hd
    rcases hd with rfl | rfl <;> decide
  · simp only [List.mem_cons, List.not_mem_nil, or_false] at hd
    rcases hd with rfl | rfl <;> decide
  · simp only [List.mem_cons, List.not_mem_nil, or_false] at hd
    subst hd
    omega
  · exact uEscape_ascii _ d hd
  · rcases List.mem_append.mp hd with hd | hd
    · exact uEscape_ascii _ d hd
    · exact uEscape_ascii _ d hd

theorem escCharRaw_nonAscii (c : Char) (h : 0x7f < c.toNat) :
    escCharRaw c = [c] := by
  unfold escCharRaw
  split_ifs with h1 h2 h3 h4 h5 h6 h7 h8
  · exact absurd h (by subst h1; decide)
  · exact absurd h (by subst h2; decide)
  · exact absurd h (by subst h3; decide)
  · exact absurd h (by subst h4; decide)
  · exact absurd h (by subst h5; decide)
  · exact absurd h (by subst h6; decide)
  · exact absurd h (by subst h7; decide)
  · exact absurd h (by omega)
  · rfl

/-! ## Claim theorems -/

/-- C3: for every LLM response containing `N` well-formed
`"Question: ... Answer: ..."` pairs the parser returns exactly `N` `QAPair`
records in their order of appearance, and a trailing `"Question:"` with no
following `"Answer:"` is silently discarded (yielding only the complete
pairs) — the parser is a total function, so it never raises and never emits a
partial pair. -/
theorem claim_C3 (ps : List (List Char × List Char))
    (h : ∀ p ∈ ps, wfPayload p.1 ∧ wfPayload p.2) :
    parse_qa_pairs (String.mk (renderQA ps))
        = ps.map (fun p => ⟨String.mk p.1, String.mk p.2⟩)
    ∧ ∀ qt, wfPayload qt →
        parse_qa_pairs (String.mk (renderQA ps ++ qMark ++ qt))
          = ps.map (fun p => ⟨String.mk p.1, String.mk p.2⟩) :=
  ⟨parse_qa_pairs_render ps h,
   fun qt hqt => parse_qa_pairs_render_trailing ps qt h hqt⟩

theorem claim_C3_witness :
    (∀ p ∈ ([("What is X?".toList, "It is Y.".toList),
             ("Why?".toList, "Because.".toList)] : List (List Char × List Char)),
        wfPayload p.1 ∧ wfPayload p.2)
    ∧ wfPayload "Dangling".toList
    ∧ parse_qa_pairs (String.mk (renderQA
        [("What is X?".toList, "It is Y.".toList),
         ("Why?".toList, "Because.".toList)]))
        = ([("What is X?".toList, "It is Y.".toList),
            ("Why?".toList, "Because.".toList)] :
            List (List Char × List Char)).map
            (fun p => ⟨String.mk p.1, String.mk p.2⟩)
    ∧ parse_qa_pairs (String.mk (renderQA
        [("What is X?".toList, "It is Y.".toList),
         ("Why?".toList, "Because.".toList)] ++ qMark ++ "Dangling".toList))
        = ([("What is X?".toList, "It is Y.".toList),
            ("Why?".toList, "Because.".toList)] :
            List (List Char × List Char)).map
            (fun p => ⟨String.mk p.1, String.mk p.2⟩) :=
  ⟨by decide, by decide,
   (claim_C3 _ (by decide)).1,
   (claim_C3 _ (by decide)).2 _ (by decide)⟩

/-- C4: the dispatch loop over `n` prompt units with batch size `b > 0` makes
exactly `⌈n/b⌉ = (n + b - 1) / b` backend calls, each batch holds at most `b`
prompts and the batches concatenate back to the input in its original order;
with a one-response-per-prompt backend the collected responses are exactly
the `n` per-prompt responses in order. -/
theorem claim_C4 {α β : Type} (xs : List α) (b : Nat) (hb : 0 < b) :
    (batchesOf xs b).length = (xs.length + b - 1) / b
    ∧ (∀ bt ∈ batchesOf xs b, bt.length ≤ b)
    ∧ (batchesOf xs b).flatten = xs
    ∧ ∀ g : α → β,
        dispatchResponses (List.map g) xs b = xs.map g
        ∧ (dispatchResponses (List.map g) xs b).length = xs.length :=
  ⟨batchesOf_length xs b, batchesOf_batch_le xs b, batchesOf_join b hb xs,
   fun g => ⟨dispatchResponses_map g xs b hb,
     by rw [dispatchResponses_map g xs b hb, List.length_map]⟩⟩

theorem claim_C4_witness :
    0 < 32
    ∧ (batchesOf (List.range 2) 32).length = (2 + 32 - 1) / 32
    ∧ (batchesOf (List.range 2) 32).length = 1
    ∧ (batchesOf (List.range 40) 32).flatten = List.range 40
    ∧ (batchesOf (List.range 40) 32).map List.length = [32, 8] :=
  ⟨by decide, (claim_C4 (β := Nat) (List.range 2) 32 (by decide)).1,
   by decide, (claim_C4 (β := Nat) (List.range 40) 32 (by decide)).2.2.1,
   by decide⟩

/-- C7: when the parquet columns do not include `'text'`,
`ParquetParser.parse` raises `ValueError` with a message listing all
available columns, and no row is converted into a document (no `.ok` result
exists). -/
theorem claim_C7 (df : PDataFrame) (h : "text" ∉ df.columns) :
    ParquetParser.parse df = .error (.valueError (parquetColMsg df.columns))
    ∧ ∀ docs, ParquetParser.parse df ≠ .ok docs := by
  have he : ParquetParser.parse df
      = .error (.valueError (parquetColMsg df.columns)) := by
    unfold ParquetParser.parse
    rw [if_neg h]
  refine ⟨he, fun docs hdocs => ?_⟩
  rw [he] at hdocs
  exact Except.noConfusion hdocs

theorem claim_C7_witness :
    "text" ∉ (⟨["title", "body"], [PCell.val "x"]⟩ : PDataFrame).columns
    ∧ ParquetParser.parse ⟨["title", "body"], [PCell.val "x"]⟩
        = .error (.valueError (parquetColMsg
            (⟨["title", "body"], [PCell.val "x"]⟩ : PDataFrame).columns)) :=
  ⟨by decide, (claim_C7 ⟨["title", "body"], [PCell.val "x"]⟩ (by decide)).1⟩

/-- C8: for any input path whose (lower-cased) extension is not `.parquet`,
the ingest stage raises `ValueError` from `determineParser` before the file
is read — the result does not depend on whether the file exists or on any
file content `df`. -/
theorem claim_C8 (p : String) (h : lowerStr (splitextExt p) ≠ ".parquet") :
    ∀ (fileExists : Bool) (df : PDataFrame),
      determineParser p fileExists
          = .error (.valueError (extErrMsg (lowerStr (splitextExt p))))
      ∧ ingest_process_file p fileExists df
          = .error (.valueError (extErrMsg (lowerStr (splitextExt p)))) := by
  intro fe df
  have hd : determineParser p fe
      = .error (.valueError (extErrMsg (lowerStr (splitextExt p)))) := by
    unfold determineParser
    rw [if_pos h]
  refine ⟨hd, ?_⟩
  unfold ingest_process_file
  rw [hd]
  rfl

theorem claim_C8_witness :
    lowerStr (splitextExt "data.csv") ≠ ".parquet"
    ∧ determineParser "data.csv" true
        = .error (.valueError (extErrMsg (lowerStr (splitextExt "data.csv")))) :=
  ⟨by decide, (claim_C8 "data.csv" (by decide) true ⟨[], []⟩).1⟩

theorem parse_foldl_filter (rows : List PCell) :
    ∀ acc : List PyDoc,
      rows.foldl
        (fun acc c =>
          if keepRow c then acc ++ [({ text := cellText c } : PyDoc)] else acc)
        acc
      = acc ++ (rows.filter keepRow).map (fun c => ({ text := cellText c } : PyDoc)) := by
  induction rows with
  | nil => intro acc; simp
  | cons c rest ih =>
    intro acc
    simp only [List.foldl_cons]
    by_cases hc : keepRow c = true
    · rw [if_pos hc, ih, List.filter_cons, if_pos hc]
      simp
    · rw [if_neg hc, ih, List.filter_cons, if_neg hc]

/-- C9: with the `'text'` column present, `ParquetParser.parse` keeps exactly
the rows whose text survives `str(...)`-conversion plus stripping (dropping
`NaN`, empty and whitespace-only rows), falls back to `[{"text": ""}]` when no
row survives, and therefore always returns a non-empty list. -/
theorem claim_C9 (df : PDataFrame) (h : "text" ∈ df.columns) :
    ParquetParser.parse df
      = .ok (if ((df.rows.filter keepRow).map
               (fun c => ({ text := cellText c } : PyDoc))).isEmpty
             then [({ text := "" } : PyDoc)]
             else (df.rows.filter keepRow).map
               (fun c => ({ text := cellText c } : PyDoc)))
    ∧ ∀ docs, ParquetParser.parse df = .ok docs → docs ≠ [] := by
  have he : ParquetParser.parse df
      = .ok (if ((df.rows.filter keepRow).map
               (fun c => ({ text := cellText c } : PyDoc))).isEmpty
             then [({ text := "" } : PyDoc)]
             else (df.rows.filter keepRow).map
               (fun c => ({ text := cellText c } : PyDoc))) := by
    unfold ParquetParser.parse
    rw [if_pos h, parse_foldl_filter df.rows []]
    rw [List.nil_append]
  refine ⟨he, fun docs hdocs => ?_⟩
  rw [he] at hdocs
  injection hdocs with hdocs
  subst hdocs
  by_cases hk : ((df.rows.filter keepRow).map
      (fun c => ({ text := cellText c } : PyDoc))).isEmpty = true
  · rw [if_pos hk]
    simp
  · rw [if_neg hk]
    intro hnil
    rw [hnil] at hk
    exact hk rfl

theorem claim_C9_witness :
    "text" ∈ (⟨["text"], [PCell.na, PCell.val "  ", PCell.val "hi"]⟩ : PDataFrame).columns
    ∧ ParquetParser.parse ⟨["text"], [PCell.na, PCell.val "  ", PCell.val "hi"]⟩
        = .ok (if (((⟨["text"], [PCell.na, PCell.val "  ", PCell.val "hi"]⟩ :
                PDataFrame).rows.filter keepRow).map
                (fun c => ({ text := cellText c } : PyDoc))).isEmpty
               then [({ text := "" } : PyDoc)]
               else ((⟨["text"], [PCell.na, PCell.val "  ", PCell.val "hi"]⟩ :
                PDataFrame).rows.filter keepRow).map
                (fun c => ({ text := cellText c } : PyDoc))) :=
  ⟨by decide,
   (claim_C9 ⟨["text"], [PCell.na, PCell.val "  ", PCell.val "hi"]⟩ (by decide)).1⟩

/-- C2 (code bug): the compression ratio is guarded only in the distill
generator.  On an empty-text document `KnowledgeListGenerator.process_documents`
and `ExtractKnowledgeGenerator.process_responses` raise `ZeroDivisionError`
(the division `len(output) / len(input)` is unguarded), while
`DistillGenerator.process_documents` returns ratio `0`; on non-empty input the
ratio is exactly `len(output) / len(input)` (`5 / 10 = 1/2` below). -/
theorem claim_C2 :
    kl_process_documents (fun _ => "out") "tmpl"
        [{ text := "", id := some "d1" }] = .error .zeroDivisionError
    ∧ ek_process_responses [{ text := "", id := some "d1" }] ["out"]
        = .error .zeroDivisionError
    ∧ distill_process_documents (fun _ => "out") "tmpl" [{ text := "" }]
        = [⟨"", "out", 0, 3, 0⟩]
    ∧ distill_process_documents (fun _ => "abcde") "tmpl" [{ text := "abcdefghij" }]
        = [⟨"abcdefghij", "abcde", 10, 5, 1/2⟩] := by
  have h10 : ("abcdefghij" : String).length = 10 := by decide
  have h5 : ("abcde" : String).length = 5 := by decide
  have h0 : ("" : String).length = 0 := by decide
  have h3 : ("out" : String).length = 3 := by decide
  refine ⟨rfl, rfl, ?_, ?_⟩
  · unfold distill_process_documents
    simp only [List.map_cons, List.map_nil, List.cons.injEq, and_true,
      DistillResult.mk.injEq, h0, h3]
    norm_num
  · unfold distill_process_documents
    simp only [List.map_cons, List.map_nil, List.cons.injEq, and_true,
      DistillResult.mk.injEq, h10, h5]
    norm_num

/-- C6 (counterexample): for content type `"qa"` the `json.dump` call is made
without `ensure_ascii=False`, so a non-ASCII character such as `'é'` is
`\uXXXX`-escaped and does not survive into the output, contradicting the
claim that every content type preserves non-ASCII unescaped. -/
theorem claim_C6_counterexample :
    create_dump_args "qa" = some ⟨2, true⟩
    ∧ 'é' ∈ "é".toList
    ∧ isAsciiCh 'é' = false
    ∧ 'é' ∉ (py_json_dump_string ⟨2, true⟩ "é").toList
    ∧ py_json_dump_string ⟨2, true⟩ "é" = "\"\\u00e9\"" := by
  refine ⟨rfl, by decide, by decide, by decide, by decide⟩

/-- C6 (amended): every content type's output is written with `indent=2`;
the four types that pass `ensure_ascii=False` (distill, knowledge-list,
extract-knowledge, wikipedia-rephrase) preserve every non-ASCII character
unescaped, while the `"qa"` type keeps Python's default `ensure_ascii=True`
and its serialized output is pure ASCII (non-ASCII characters are
`\uXXXX`-escaped away). -/
theorem claim_C6_amended :
    (∀ ct ∈ contentTypes, ∃ args, create_dump_args ct = some args ∧ args.indent = 2)
    ∧ (∀ ct ∈ ["distill", "knowledge-list", "extract-knowledge", "wikipedia-rephrase"],
        create_dump_args ct = some ⟨2, false⟩)
    ∧ create_dump_args "qa" = some ⟨2, true⟩
    ∧ (∀ (s : String) (c : Char), isAsciiCh c = false → c ∈ s.toList →
        c ∈ (py_json_dump_string ⟨2, false⟩ s).toList)
    ∧ (∀ (s : String) (c : Char), isAsciiCh c = false →
        c ∉ (py_json_dump_string ⟨2, true⟩ s).toList) := by
  have hgt : ∀ c : Char, isAsciiCh c = false → 0x7f < c.toNat := by
    intro c hc
    unfold isAsciiCh at hc
    by_contra hle
    rw [decide_eq_false_iff_not] at hc
    exact hc (by omega)
  refine ⟨?_, ?_, rfl, ?_, ?_⟩
  · intro ct hct
    fin_cases hct
    · exact ⟨⟨2, true⟩, rfl, rfl⟩
    · exact ⟨⟨2, false⟩, rfl, rfl⟩
    · exact ⟨⟨2, false⟩, rfl, rfl⟩
    · exact ⟨⟨2, false⟩, rfl, rfl⟩
    · exact ⟨⟨2, false⟩, rfl, rfl⟩
  · intro ct hct
    fin_cases hct <;> rfl
  · intro s c hc hcs
    unfold py_json_dump_string
    rw [toList_mk]
    simp only [List.mem_append, List.mem_cons]
    left
    right
    apply List.mem_flatMap.mpr
    refine ⟨c, hcs, ?_⟩
    show c ∈ escCharRaw c
    rw [escCharRaw_nonAscii c (hgt c hc)]
    simp
  · intro s c hc hmem
    unfold py_json_dump_string at hmem
    rw [toList_mk] at hmem
    simp only [List.mem_append, List.mem_cons] at hmem
    have hc' := hgt c hc
    rcases hmem with (rfl | hmem) | hmem
    · exact absurd hc' (by decide)
    · have hmem' : c ∈ s.toList.flatMap escCharAscii := hmem
      obtain ⟨x, _, hcx⟩ := List.mem_flatMap.mp hmem'
      have := escCharAscii_ascii x c hcx
      omega
    · rcases hmem with rfl | hmem
      · exact absurd hc' (by decide)
      · cases hmem

theorem claim_C6_witness :
    (isAsciiCh 'é' = false ∧ 'é' ∈ "é".toList)
    ∧ 'é' ∈ (py_json_dump_string ⟨2, false⟩ "é").toList
    ∧ 'é' ∉ (py_json_dump_string ⟨2, true⟩ "é").toList :=
  ⟨⟨by decide, by decide⟩,
   claim_C6_amended.2.2.2.1 "é" 'é' (by decide) (by decide),
   claim_C6_amended.2.2.2.2 "é" 'é' (by decide)⟩

/-- C1 (counterexample): `BaseGenerator.process_documents` has no
`try/except` around its batch loop, so for the generators that use it
(wikipedia-rephrase shown here) a raising backend call propagates and aborts
the whole run instead of being caught, contributing empty and continuing:
with two one-document batches and a backend that raises, the result is the
raised exception, not a (possibly empty) result list. -/
theorem claim_C1_counterexample :
    wiki_process_documents (fun _ => .error (.exception "boom")) ⟨"s", "u"⟩ 1
        [{ text := "a", id := some "1" }, { text := "b", id := some "2" }]
      = .error (.exception "boom") := by
  rfl

/-- C1 (amended): in `QAGenerator.generate_qa_pairs` the batch loop catches
each exception — the failing batch contributes no pairs, its error message is
logged (only) in verbose mode, and all remaining batches are still processed;
in `BaseGenerator.process_documents` there is no such handler: as soon as any
dispatched batch raises, the loop aborts with that exception. -/
theorem claim_C1_amended :
    (∀ (backend : Backend) (qaTmpl text : String) (cfg : GenConfig) (verbose : Bool),
      generate_qa_pairs_model backend qaTmpl text cfg verbose
        = (((batchesOf (qaMessages qaTmpl text cfg) cfg.batch_size).map (fun bt =>
              match backend bt with
              | .ok rs => rs.flatMap (fun r => parse_qa_pairs r)
              | .error _ => [])).flatten,
           ((batchesOf (qaMessages qaTmpl text cfg) cfg.batch_size).map (fun bt =>
              match backend bt with
              | .ok _ => ([] : List String)
              | .error e => if verbose then [pyErrMsg e] else [])).flatten))
    ∧ ∀ (backend : Backend) (bts : List (List (List ChatMsg))),
        (∃ bt ∈ bts, ∃ e, backend bt = .error e) →
        ∃ e, runBatches backend bts = .error e := by
  constructor
  · intro backend qaTmpl text cfg verbose
    exact generate_qa_pairs_model_eq backend qaTmpl text cfg verbose
  · intro backend bts
    induction bts with
    | nil =>
      rintro ⟨bt, hmem, _⟩
      cases hmem
    | cons bt rest ih =>
      rintro ⟨bt', hmem, e, he⟩
      rcases List.mem_cons.mp hmem with rfl | hmem'
      · exact ⟨e, by unfold runBatches; rw [he]; rfl⟩
      · cases hb : backend bt with
        | error e2 => exact ⟨e2, by unfold runBatches; rw [hb]; rfl⟩
        | ok rs =>
          obtain ⟨e3, he3⟩ := ih ⟨bt', hmem', e, he⟩
          exact ⟨e3, by unfold runBatches; rw [hb, he3]; rfl⟩

theorem claim_C1_witness :
    (∃ bt ∈ [[[(⟨"system", "p"⟩ : ChatMsg)]]],
        ∃ e, (fun _ => .error (.exception "x") : Backend) bt = .error e)
    ∧ ∃ e, runBatches (fun _ => .error (.exception "x"))
        [[[(⟨"system", "p"⟩ : ChatMsg)]]] = .error e :=
  ⟨⟨[[(⟨"system", "p"⟩ : ChatMsg)]], by simp, .exception "x", rfl⟩,
   claim_C1_amended.2 (fun _ => .error (.exception "x")) _
     ⟨[[(⟨"system", "p"⟩ : ChatMsg)]], by simp, .exception "x", rfl⟩⟩

/-- C5 (counterexample): with an order-preserving one-string-per-input
backend, `ExtractKnowledgeGenerator.process_documents` still fails to produce
one result per document when a document's text is empty: the unguarded
compression-ratio division raises `ZeroDivisionError` and no results are
returned. -/
theorem claim_C5_counterexample :
    ek_process_documents (pureBackend (fun _ => "x")) ⟨"s", "u"⟩ 32
        [{ text := "", id := some "d1" }]
      = .error .zeroDivisionError := by
  rfl

/-- C5 (amended): assuming the backend is order-preserving and returns one
string per input message list (`pureBackend g`), `process_documents` for
wikipedia-rephrase yields exactly one result per document, in input order,
the `i`-th carrying the `i`-th document's id — and the same holds for
extract-knowledge provided every document's text is non-empty, since its
unguarded ratio division raises `ZeroDivisionError` on an empty text. -/
theorem claim_C5_amended (g : List ChatMsg → String) (prompt : SPrompt)
    (b : Nat) (docs : List PyDoc) (hb : 0 < b)
    (hid : ∀ d ∈ docs, d.id.isSome) :
    (wiki_process_documents (pureBackend g) prompt b docs
        = .ok (docs.map (fun d => ⟨d.id.getD "", g (buildMessages prompt d)⟩))
      ∧ ∀ l, wiki_process_documents (pureBackend g) prompt b docs = .ok l →
          l.length = docs.length
          ∧ ∀ (i : Nat) (hi : i < l.length) (hi2 : i < docs.length),
              some (l.get ⟨i, hi⟩).id = (docs.get ⟨i, hi2⟩).id)
    ∧ ((∀ d ∈ docs, d.text ≠ "") →
        ek_process_documents (pureBackend g) prompt b docs
          = .ok (docs.map (fun d =>
              ⟨d.id.getD "", g (buildMessages prompt d), d.text, d.text.length,
                (g (buildMessages prompt d)).length,
                ((g (buildMessages prompt d)).length : ℚ) / (d.text.length : ℚ)⟩))
        ∧ ∀ l, ek_process_documents (pureBackend g) prompt b docs = .ok l →
            l.length = docs.length
            ∧ ∀ (i : Nat) (hi : i < l.length) (hi2 : i < docs.length),
                some (l.get ⟨i, hi⟩).id = (docs.get ⟨i, hi2⟩).id) := by
  have hsome : ∀ (i : Nat) (hi2 : i < docs.length),
      some ((docs.get ⟨i, hi2⟩).id.getD "") = (docs.get ⟨i, hi2⟩).id := by
    intro i hi2
    obtain ⟨v, hv⟩ := Option.isSome_iff_exists.mp
      (hid (docs.get ⟨i, hi2⟩) (List.get_mem docs i hi2))
    rw [hv]
    rfl
  constructor
  · have hw := wiki_pd_pure g prompt b docs hb hid
    refine ⟨hw, fun l hl => ?_⟩
    rw [hw] at hl
    injection hl with hl
    subst hl
    refine ⟨by rw [List.length_map], fun i hi hi2 => ?_⟩
    rw [List.get_eq_getElem, List.getElem_map]
    exact hsome i hi2
  · intro htext
    have hek := ek_pd_pure g prompt b docs hb hid htext
    refine ⟨hek, fun l hl => ?_⟩
    rw [hek] at hl
    injection hl with hl
    subst hl
    refine ⟨by rw [List.length_map], fun i hi hi2 => ?_⟩
    rw [List.get_eq_getElem, List.getElem_map]
    exact hsome i hi2

theorem claim_C5_witness :
    (0 < 32
      ∧ (∀ d ∈ [({ text := "hello", id := some "d1" } : PyDoc),
          { text := "world", id := some "d2" }], d.id.isSome)
      ∧ (∀ d ∈ [({ text := "hello", id := some "d1" } : PyDoc),
          { text := "world", id := some "d2" }], d.text ≠ ""))
    ∧ wiki_process_documents (pureBackend (fun _ => "r")) ⟨"s", "u"⟩ 32
        [({ text := "hello", id := some "d1" } : PyDoc),
         { text := "world", id := some "d2" }]
      = .ok ([({ text := "hello", id := some "d1" } : PyDoc),
          { text := "world", id := some "d2" }].map
          (fun d => ⟨d.id.getD "", (fun _ => "r") (buildMessages ⟨"s", "u"⟩ d)⟩)) :=
  ⟨⟨by decide, by decide, by decide⟩,
   (claim_C5_amended (fun _ => "r") ⟨"s", "u"⟩ 32 _ (by decide) (by decide)).1.1⟩

theorem except_bind_error {ε α β : Type} (e : ε) (f : α → Except ε β) :
    (Except.error e >>= f) = Except.error e := rfl

theorem except_bind_ok {ε α β : Type} (x : α) (f : α → Except ε β) :
    (Except.ok x >>= f) = f x := rfl

/-- A document with no `"id"` key makes `QAGenerator.process_documents` raise
`KeyError('id')` as soon as at least one QA pair was parsed for it. -/
theorem qa_pd_keyError (backend : Backend) (qaTmpl : String) (cfg : GenConfig)
    (verbose : Bool) (d : PyDoc) (hid : d.id = none)
    (p : QAPair) (tl : List QAPair)
    (hp : (generate_qa_pairs_model backend qaTmpl d.text cfg verbose).1 = p :: tl) :
    qa_process_documents backend qaTmpl cfg verbose [d]
      = .error (.keyError "id") := by
  simp only [qa_process_documents, collectE, hp, PyDoc.getId, hid,
    except_bind_error, except_bind_ok]

/-- C10: for a plain (non-`.lance`) input, `create.process_file` builds a
single document `{"text": ..., "image": None}` with no `"id"` key, and every
generator that reads `doc["id"]` then raises `KeyError('id')`: knowledge-list
and (via the base pipeline) extract-knowledge and wikipedia-rephrase always,
and QA as soon as at least one pair is parsed (guaranteed below by a
pair-producing backend on non-empty text). -/
theorem claim_C10 (content : String) (lanceDocs : List PyDoc)
    (g : List ChatMsg → String) (gk : String → String) (tmpl : String)
    (prompt : SPrompt) (b : Nat)
    (hb : 0 < b) (hc : content ≠ "") :
    create_build_documents false lanceDocs content
        = [{ text := content, id := none, image := some none }]
    ∧ kl_process_documents gk tmpl (create_build_documents false lanceDocs content)
        = .error (.keyError "id")
    ∧ ek_process_documents (pureBackend g) prompt b
        (create_build_documents false lanceDocs content)
        = .error (.keyError "id")
    ∧ wiki_process_documents (pureBackend g) prompt b
        (create_build_documents false lanceDocs content)
        = .error (.keyError "id")
    ∧ qa_process_documents
        (fun _ => .ok [String.mk (renderQA [("q?".toList, "a.".toList)])]) tmpl
        ⟨4000, 200, 32⟩ false (create_build_documents false lanceDocs content)
        = .error (.keyError "id") := by
  have hbuild : create_build_documents false lanceDocs content
      = [{ text := content, id := none, image := some none }] := rfl
  refine ⟨hbuild, ?_, ?_, ?_, ?_⟩
  · rw [hbuild]
    rfl
  · rw [hbuild]
    unfold ek_process_documents
    rw [base_collect_pure g prompt b _ hb]
    rfl
  · rw [hbuild]
    unfold wiki_process_documents
    rw [base_collect_pure g prompt b _ hb]
    rfl
  · rw [hbuild]
    have hlen : 0 < content.length := by
      cases content with
      | mk data =>
        cases data with
        | nil => exact absurd (by rfl) hc
        | cons ch cs => simp [String.length]
    have hmsgs : 0 < (qaMessages tmpl content ⟨4000, 200, 32⟩).length := by
      unfold qaMessages split_into_chunks pyRange
      simp only [List.length_map, List.length_range]
      omega
    have hbts : batchesOf (qaMessages tmpl content ⟨4000, 200, 32⟩) 32 ≠ [] := by
      intro he
      have h2 := congrArg List.length he
      rw [batchesOf_length] at h2
      simp only [List.length_nil] at h2
      omega
    obtain ⟨bt0, rest0, hbt⟩ := List.exists_cons_of_ne_nil hbts
    have hgen := congrArg Prod.fst (generate_qa_pairs_model_eq
      (fun _ => .ok [String.mk (renderQA [("q?".toList, "a.".toList)])])
      tmpl content ⟨4000, 200, 32⟩ false)
    have hpar : parse_qa_pairs (String.mk (renderQA [("q?".toList, "a.".toList)]))
        = [(⟨"q?", "a."⟩ : QAPair)] := by
      have h := parse_qa_pairs_render [("q?".toList, "a.".toList)] (by decide)
      simp only [List.map_cons, List.map_nil] at h
      exact h
    have hA : (fun (bt : List (List ChatMsg)) =>
        match (fun (_ : List (List ChatMsg)) =>
            (.ok [String.mk (renderQA [("q?".toList, "a.".toList)])] :
              Except PyErr (List String))) bt with
        | .ok rs => rs.flatMap (fun r => parse_qa_pairs r)
        | .error _ => ([] : List QAPair))
        = fun _ => [(⟨"q?", "a."⟩ : QAPair)] := by
      funext bt
      show [String.mk (renderQA [("q?".toList, "a.".toList)])].flatMap
          (fun r => parse_qa_pairs r) = [(⟨"q?", "a."⟩ : QAPair)]
      rw [List.flatMap_cons, List.flatMap_nil, List.append_nil]
      exact hpar
    rw [hA] at hgen
    rw [hbt] at hgen
    simp only [List.map_cons, List.flatten_cons, List.cons_append,
      List.nil_append] at hgen
    exact qa_pd_keyError _ tmpl ⟨4000, 200, 32⟩ false
      { text := content, id := none, image := some none } rfl _ _ hgen

theorem claim_C10_witness :
    (0 < 32 ∧ "hello" ≠ "")
    ∧ kl_process_documents (fun _ => "out") "t"
        (create_build_documents false [] "hello") = .error (.keyError "id")
    ∧ qa_process_documents
        (fun _ => .ok [String.mk (renderQA [("q?".toList, "a.".toList)])]) "t"
        ⟨4000, 200, 32⟩ false (create_build_documents false [] "hello")
        = .error (.keyError "id") :=
  ⟨⟨by decide, by decide⟩,
   (claim_C10 "hello" [] (fun _ => "r") (fun _ => "out") "t" ⟨"s", "u"⟩ 32
     (by decide) (by decide)).2.1,
   (claim_C10 "hello" [] (fun _ => "r") (fun _ => "out") "t" ⟨"s", "u"⟩ 32
     (by decide) (by decide)).2.2.2.2⟩
